import Mathlib

/-!
A formal model of the MemoryMind AI repository: the opponent decision
engine (`MemoryAI`, from src/js/ai.js), the match controller
(`MemoryGame`, from src/js/game.js) and the helpers of src/js/utils.js
that they use.

Modelling conventions:
* JavaScript numbers are modelled as rationals (`ℚ`); the arithmetic the
  program performs (small additive steps, divisions of small counts,
  `Math.min` / `Math.max` / `Math.floor`) is modelled exactly.
* `Math.random()` is modelled by consuming the next value of an explicit
  stream of rationals (`List ℚ`, values in `[0,1)`); when the stream is
  exhausted the draw defaults to `0`, itself a legal value of
  `Math.random()`.
* A JavaScript `Map` is modelled as an insertion-ordered association
  list: `set` overwrites in place or appends, `get`/`has` search by key,
  iteration follows list order, exactly as JS `Map` guarantees.
* `undefined` flowing out of an out-of-range array access is modelled by
  `Option`; code that would throw a `TypeError` is modelled as an
  `Except`/`Option` failure.
* The emoji alphabet `GAME_CONSTANTS.SYMBOLS` is represented by four
  distinct placeholder strings; the program only ever compares symbols
  for equality.
-/

namespace JsModel

/-- One call of `Math.random()`: the next value of the stream (default `0`). -/
def draw : List ℚ → ℚ × List ℚ
  | [] => (0, [])
  | r :: rest => (r, rest)

/-- JS `Map.get(k)`, `none` when the key is absent (`undefined`). -/
def mapGet? {κ α : Type} [DecidableEq κ] (m : List (κ × α)) (k : κ) : Option α :=
  (m.find? (fun p => decide (p.1 = k))).map (fun p => p.2)

/-- JS `Map.has(k)`. -/
def mapHas {κ α : Type} [DecidableEq κ] (m : List (κ × α)) (k : κ) : Bool :=
  (mapGet? m k).isSome

/-- JS `Map.set(k, v)`: overwrite in place when the key is present, else append;
insertion order is preserved, as for a JS `Map`. -/
def mapSet {κ α : Type} [DecidableEq κ] (m : List (κ × α)) (k : κ) (v : α) : List (κ × α) :=
  if mapHas m k then m.map (fun p => if p.1 = k then (k, v) else p) else m ++ [(k, v)]

/-- JS `Math.max` on two numbers; on `ℚ` this is exactly `max` (see `mathMax_eq`).
The explicit `if` form keeps the function evaluable by the kernel. -/
def mathMax (a b : ℚ) : ℚ := if a ≤ b then b else a

/-- JS `Math.min` on two numbers; on `ℚ` this is exactly `min` (see `mathMin_eq`). -/
def mathMin (a b : ℚ) : ℚ := if a ≤ b then a else b

/-- JS `Set.add(x)` on the insertion-ordered model of a `Set`. -/
def setAdd (s : List String) (x : String) : List String :=
  if x ∈ s then s else s ++ [x]

/-- `GAME_CONSTANTS.SYMBOLS` (four distinct emoji, as placeholder strings). -/
def SYMBOLS : List String :=
  ["emoji-star", "emoji-circle", "emoji-triangle", "emoji-square"]

/-- `GAME_CONSTANTS.SYMBOL_NAMES`. -/
def SYMBOL_NAMES : List String := ["star", "circle", "triangle", "square"]

/-- One entry of `GAME_CONSTANTS.DIFFICULTIES`. -/
structure DifficultyProfile where
  rows : ℕ
  cols : ℕ
  aiAccuracy : ℚ
deriving DecidableEq, Repr

/-- `GAME_CONSTANTS.DIFFICULTIES`: lookup yields `none` (JS `undefined`) for an
unrecognized level. -/
def DIFFICULTIES : String → Option DifficultyProfile
  | "beginner" => some ⟨4, 4, 7/10⟩
  | "intermediate" => some ⟨4, 6, 85/100⟩
  | "advanced" => some ⟨6, 6, 95/100⟩
  | "expert" => some ⟨6, 8, 98/100⟩
  | _ => none

/-- `GameUtils.randomChoice(array)`: `array[Math.floor(Math.random() * array.length)]`;
`none` models the `undefined` obtained from an empty array. (`Rat.floor` is the
floor function on `ℚ`, used in the explicitly computable form.) -/
def randomChoice {α : Type} (l : List α) (r : ℚ) : Option α :=
  l.get? (r * (l.length : ℚ)).floor.toNat

/-- One swap of the Fisher-Yates loop: `[a[i], a[j]] = [a[j], a[i]]` (the right-hand
pair is read before either write, so this is exact also when `i = j`). -/
def swapAt {α : Type} (l : List α) (i j : ℕ) (d : α) : List α :=
  (l.set i (l.getD j d)).set j (l.getD i d)

/-- The loop of `GameUtils.shuffleArray`: the counter of the `for` loop is `i + 1`
here, running from `length - 1` down to `1`, and `j = Math.floor(Math.random() * (i + 1))`
with the loop counter in place of `i`. -/
def shuffleGo {α : Type} (d : α) : List α → List ℚ → ℕ → List α × List ℚ
  | l, rnd, 0 => (l, rnd)
  | l, rnd, i + 1 =>
    let (r, rest) := draw rnd
    let j := (r * ((i : ℚ) + 2)).floor.toNat
    shuffleGo d (swapAt l (i + 1) j d) rest i

/-- `GameUtils.shuffleArray(array)` (Fisher-Yates). `d` is a dummy element for the
out-of-range reads that cannot occur while the random values lie in `[0,1)`. -/
def shuffleArray {α : Type} (d : α) (l : List α) (rnd : List ℚ) : List α × List ℚ :=
  shuffleGo d l rnd (l.length - 1)

/-- One retained observation of `MemoryAI.revealedCards`. -/
structure RevealedInfo where
  symbol : String
  moveNumber : ℕ
  isPlayerMove : Bool
deriving DecidableEq, Repr

/-- One entry of `MemoryAI.playerPatterns`; the wall-clock `timestamp` field is
never read by any logic and is not modelled. -/
structure PatternEntry where
  cardIndex : ℕ
  moveNumber : ℕ
deriving DecidableEq, Repr

/-- One entry of `MemoryAI.gameHistory`. -/
structure HistoryEntry where
  cards : List ℕ
  wasMatch : Bool
  symbols : List String
  moveNumber : ℕ
deriving DecidableEq, Repr

/-- The mutable state of a `MemoryAI` instance (src/js/ai.js). -/
structure AIState where
  difficulty : String
  config : DifficultyProfile
  memory : List (ℕ × String)
  probabilityMatrix : List (ℕ × List (String × ℚ))
  playerPatterns : List PatternEntry
  gameHistory : List HistoryEntry
  knownPairs : List String
  revealedCards : List (ℕ × RevealedInfo)
  moveCount : ℕ
  memoryAccuracy : ℚ
  explorationRate : ℚ
deriving DecidableEq, Repr

namespace MemoryAI

/-- `MemoryAI.reset()`: clears the belief state, keeping difficulty, accuracy and
exploration rate. -/
def reset (a : AIState) : AIState :=
  { a with memory := [], probabilityMatrix := [], playerPatterns := [],
           gameHistory := [], knownPairs := [], revealedCards := [], moveCount := 0 }

/-- The `MemoryAI` constructor for a recognized difficulty (the repository only
constructs it with "beginner"). -/
def mkAI (difficulty : String) (cfg : DifficultyProfile) : AIState :=
  reset { difficulty := difficulty, config := cfg, memory := [], probabilityMatrix := [],
          playerPatterns := [], gameHistory := [], knownPairs := [], revealedCards := [],
          moveCount := 0, memoryAccuracy := cfg.aiAccuracy, explorationRate := 3/10 }

/-- `MemoryAI.updateProbabilities(revealedSymbol)`; the argument is unused by the
body, exactly as in the source. -/
def updateProbabilities (a : AIState) (_revealedSymbol : String) : AIState :=
  let symbolCounts : List (String × ℕ) :=
    a.memory.foldl (fun sc p => mapSet sc p.2 ((mapGet? sc p.2).getD 0 + 1)) []
  let totalCards := a.config.rows * a.config.cols
  let symbolsPerType : ℚ := (totalCards : ℚ) / (SYMBOLS.length : ℚ)
  let matrix := (List.range totalCards).foldl
    (fun mx i =>
      if mapHas a.memory i then mx
      else
        let probabilities := SYMBOLS.map (fun symbol =>
          let seen : ℚ := ((mapGet? symbolCounts symbol).getD 0 : ℕ)
          let remaining := symbolsPerType - seen
          (symbol, mathMax 0 (remaining / ((totalCards : ℚ) - (a.memory.length : ℚ)))))
        mapSet mx i probabilities)
    a.probabilityMatrix
  { a with probabilityMatrix := matrix }

/-- `MemoryAI.trackPlayerPattern(cardIndex)`. -/
def trackPlayerPattern (a : AIState) (cardIndex : ℕ) : AIState :=
  let pats := a.playerPatterns ++ [⟨cardIndex, a.moveCount⟩]
  { a with playerPatterns := if pats.length > 20 then pats.drop 1 else pats }

/-- `MemoryAI.observeCard(cardIndex, symbol, isPlayerMove)`: one retention coin flip,
probability recomputation, pattern tracking, move counter. -/
def observeCard (a : AIState) (cardIndex : ℕ) (symbol : String) (isPlayerMove : Bool)
    (rnd : List ℚ) : AIState × List ℚ :=
  let (r, rest) := draw rnd
  let a :=
    if r < a.memoryAccuracy then
      { a with memory := mapSet a.memory cardIndex symbol,
               revealedCards := mapSet a.revealedCards cardIndex
                 ⟨symbol, a.moveCount, isPlayerMove⟩ }
    else a
  let a := updateProbabilities a symbol
  let a := if isPlayerMove then trackPlayerPattern a cardIndex else a
  ({ a with moveCount := a.moveCount + 1 }, rest)

/-- Result of `MemoryAI.analyzePlayerPatterns()`. -/
structure PatternAnalysis where
  predictedAreas : List (ℕ × ℕ)
  confidence : ℚ
deriving DecidableEq, Repr

/-- The 2x2 grid cell of a card index (the source encodes it as the string
"(row/2)-(col/2)"; the encoding is injective, so a pair is used here). -/
def areaOf (gridCols : ℕ) (cardIndex : ℕ) : ℕ × ℕ :=
  ((cardIndex / gridCols) / 2, (cardIndex % gridCols) / 2)

/-- `MemoryAI.analyzePlayerPatterns()`. JS `Array.prototype.sort` is stable;
`List.insertionSort` with the reflexive greater-or-equal comparison keeps ties in
their original order, matching the stable descending sort of the source. -/
def analyzePlayerPatterns (a : AIState) : PatternAnalysis :=
  if a.playerPatterns.length < 3 then ⟨[], 0⟩
  else
    let areaPreferences : List ((ℕ × ℕ) × ℕ) :=
      a.playerPatterns.foldl
        (fun ap pat =>
          let area := areaOf a.config.cols pat.cardIndex
          mapSet ap area ((mapGet? ap area).getD 0 + 1)) []
    let sortedAreas := (areaPreferences.insertionSort (fun p q => q.2 ≤ p.2)).take 2
    { predictedAreas := sortedAreas.map (fun p => p.1)
      confidence :=
        match sortedAreas with
        | [] => 0
        | top :: _ => (top.2 : ℚ) / (a.playerPatterns.length : ℚ) }

/-- The double loop of `findKnownPairs`: the first pair (outer index ascending,
inner index after it) of remembered cards with equal believed symbols. -/
def firstEqualPair (mem : List (ℕ × String)) : List ℕ → Option (ℕ × ℕ)
  | [] => none
  | c :: cs =>
    match cs.find? (fun c2 => decide (mapGet? mem c = mapGet? mem c2)) with
    | some c2 => some (c, c2)
    | none => firstEqualPair mem cs

/-- `MemoryAI.findKnownPairs(availableCards)`. -/
def findKnownPairs (a : AIState) (availableCards : List ℕ) : Option (ℕ × ℕ) :=
  let availableMemory := availableCards.filter (fun i => mapHas a.memory i)
  firstEqualPair a.memory availableMemory

/-- The `for (const [knownIndex, knownSymbol] of this.memory.entries())` loop of
`probabilityBasedMove`, in insertion order of the belief mapping. -/
def probabilityScan (a : AIState) (availableCards : List ℕ) :
    List (ℕ × String) → Option (ℕ × ℕ)
  | [] => none
  | (knownIndex, knownSymbol) :: rest =>
    if knownIndex ∈ availableCards then
      let candidates :=
        ((availableCards.filter (fun i => ! mapHas a.memory i)).map
          (fun i => (i, ((mapGet? a.probabilityMatrix i).bind
                           (fun ps => mapGet? ps knownSymbol)).getD 0))).filter
          (fun c => decide ((3 : ℚ)/10 < c.2))
      match (candidates.insertionSort (fun p q => q.2 ≤ p.2)) with
      | c :: _ => some (knownIndex, c.1)
      | [] => probabilityScan a availableCards rest
    else probabilityScan a availableCards rest

/-- `MemoryAI.probabilityBasedMove(availableCards)`. -/
def probabilityBasedMove (a : AIState) (availableCards : List ℕ) : Option (ℕ × ℕ) :=
  probabilityScan a availableCards a.memory

/-- `MemoryAI.explorationMove(availableCards)`. In the fallback branch the second
choice filters out `availableCards[0]` (not the first drawn card), exactly as the
source does; `availableCards.head?` is that element, `none` when the list is empty. -/
def explorationMove (a : AIState) (availableCards : List ℕ) (rnd : List ℚ) :
    (Option ℕ × Option ℕ) × List ℚ :=
  let unknownCards := availableCards.filter (fun i => ! mapHas a.memory i)
  if unknownCards.length < 2 then
    let (r1, rnd) := draw rnd
    let first := randomChoice availableCards r1
    let (r2, rnd) := draw rnd
    let second := randomChoice
      (availableCards.filter (fun i => decide (some i ≠ availableCards.head?))) r2
    ((first, second), rnd)
  else
    let patternAnalysis := analyzePlayerPatterns a
    let (useBlock, rnd) :=
      if (2 : ℚ)/5 < patternAnalysis.confidence then
        let (r, rest) := draw rnd
        (decide (r < (3 : ℚ)/10), rest)
      else (false, rnd)
    let blockedCards := unknownCards.filter
      (fun i => decide (areaOf a.config.cols i ∈ patternAnalysis.predictedAreas))
    if useBlock ∧ 2 ≤ blockedCards.length then
      let (r1, rnd) := draw rnd
      let first := randomChoice blockedCards r1
      let (r2, rnd) := draw rnd
      let second := randomChoice
        (blockedCards.filter (fun i => decide (some i ≠ blockedCards.head?))) r2
      ((first, second), rnd)
    else
      let (r1, rnd) := draw rnd
      let firstCard := randomChoice unknownCards r1
      let (r2, rnd) := draw rnd
      let secondCard := randomChoice
        (unknownCards.filter (fun i => decide (some i ≠ firstCard))) r2
      ((firstCard, secondCard), rnd)

/-- `MemoryAI.makeMove(availableCards)`: the three strategies in strict priority
order. The thinking delay and the aiThinking events are timing/UI effects with no
influence on any modelled state and are not represented. -/
def makeMove (a : AIState) (availableCards : List ℕ) (rnd : List ℚ) :
    (Option ℕ × Option ℕ) × List ℚ :=
  match findKnownPairs a availableCards with
  | some (c1, c2) => ((some c1, some c2), rnd)
  | none =>
    match probabilityBasedMove a availableCards with
    | some (c1, c2) => ((some c1, some c2), rnd)
    | none => explorationMove a availableCards rnd

/-- `MemoryAI.learnFromMove(cards, wasMatch, symbols)`; only `wasMatch` is read. -/
def learnFromMove (a : AIState) (_cards : List ℕ) (wasMatch : Bool)
    (_symbols : List String) : AIState :=
  let a :=
    if wasMatch then
      { a with memoryAccuracy := mathMin (99/100) (a.memoryAccuracy + 1/100) }
    else
      { a with memoryAccuracy := mathMax (a.config.aiAccuracy * (8/10)) (a.memoryAccuracy - 5/1000) }
  let gameProgress : ℚ := (a.knownPairs.length : ℚ) / (SYMBOLS.length : ℚ)
  { a with explorationRate := mathMax (1/10) (1/2 - gameProgress * (4/10)) }

/-- `MemoryAI.recordMoveResult(cards, wasMatch, symbols)`; `symbols[0]` is total at
every call site (the list always has two entries), the default covers `undefined`. -/
def recordMoveResult (a : AIState) (cards : List ℕ) (wasMatch : Bool)
    (symbols : List String) : AIState :=
  let a := { a with gameHistory :=
    a.gameHistory ++ [⟨cards, wasMatch, symbols, a.moveCount⟩] }
  let a :=
    if wasMatch then { a with knownPairs := setAdd a.knownPairs (symbols.headD "") }
    else a
  learnFromMove a cards wasMatch symbols

/-- `MemoryAI.setDifficulty(newDifficulty)`. For an unrecognized level the table
lookup yields JS `undefined` and the read `this.config.aiAccuracy` throws a
`TypeError`, modelled as `Except.error` (in the JS object, `this.difficulty` and
`this.config` have already been overwritten when the throw happens). -/
def setDifficulty (a : AIState) (newDifficulty : String) : Except String AIState :=
  match DIFFICULTIES newDifficulty with
  | none => Except.error "TypeError: cannot read properties of undefined"
  | some cfg =>
    Except.ok (reset { a with difficulty := newDifficulty, config := cfg,
                              memoryAccuracy := cfg.aiAccuracy })

end MemoryAI

/-- The two player identifiers of `gameState.currentPlayer`. -/
inductive Player where
  | player
  | ai
deriving DecidableEq, Repr

/-- One card of the generated board. -/
structure Card where
  symbol : String
  symbolName : String
  pairId : ℕ
deriving DecidableEq, Repr

/-- The state of a `MemoryGame` instance: the `gameState` object together with the
controller fields `config` and `totalPairs` (src/js/game.js). -/
structure GameState where
  cards : List Card
  flippedCards : List ℕ
  matchedPairs : List (ℕ × ℕ)
  currentPlayer : Player
  playerScore : ℕ
  aiScore : ℕ
  moves : ℕ
  isGameActive : Bool
  difficulty : String
  config : DifficultyProfile
  totalPairs : ℕ
deriving DecidableEq, Repr

namespace MemoryGame

/-- `isCardMatched(cardIndex)`: some matched pair contains the index. -/
def isCardMatched (g : GameState) (cardIndex : ℕ) : Bool :=
  g.matchedPairs.any (fun p => decide (p.1 = cardIndex) || decide (p.2 = cardIndex))

/-- `isValidCardClick(cardIndex)`. -/
def isValidCardClick (g : GameState) (cardIndex : ℕ) : Bool :=
  decide (g.currentPlayer = Player.player) &&
  g.isGameActive &&
  !(g.flippedCards.contains cardIndex || isCardMatched g cardIndex) &&
  decide (g.flippedCards.length < 2)

/-- `getAvailableCards()`: indices neither flipped this turn nor matched. -/
def getAvailableCards (g : GameState) : List ℕ :=
  (List.range g.cards.length).filter
    (fun i => !(g.flippedCards.contains i) && !(isCardMatched g i))

/-- The ordered pre-shuffle pair list built by `generateCards()`. -/
def cardPairs (cfg : DifficultyProfile) : List Card :=
  (List.range ((cfg.rows * cfg.cols) / 2)).foldl
    (fun acc i =>
      let symbolIndex := i % SYMBOLS.length
      acc ++ [⟨SYMBOLS.getD symbolIndex "", SYMBOL_NAMES.getD symbolIndex "", i⟩,
              ⟨SYMBOLS.getD symbolIndex "", SYMBOL_NAMES.getD symbolIndex "", i⟩]) []

/-- `generateCards()`: shuffles the pair list into `gameState.cards` and sets
`totalPairs`. -/
def generateCards (g : GameState) (rnd : List ℚ) : GameState × List ℚ :=
  let pairsNeeded := (g.config.rows * g.config.cols) / 2
  let (cards, rnd) := shuffleArray ⟨"", "", 0⟩ (cardPairs g.config) rnd
  ({ g with cards := cards, totalPairs := pairsNeeded }, rnd)

/-- `setupNewGame()`: resets `gameState`, resets the AI and generates cards; the
UI reset, status messages and timer are I/O effects and are not modelled. -/
def setupNewGame (g : GameState) (a : AIState) (rnd : List ℚ) :
    GameState × AIState × List ℚ :=
  let g := { g with cards := [], flippedCards := [], matchedPairs := [],
                    currentPlayer := Player.player, playerScore := 0, aiScore := 0,
                    moves := 0, isGameActive := true }
  let a := MemoryAI.reset a
  let (g, rnd) := generateCards g rnd
  (g, a, rnd)

/-- `switchTurn()`. -/
def switchTurn (g : GameState) : GameState :=
  { g with currentPlayer :=
      if g.currentPlayer = Player.player then Player.ai else Player.player }

/-- `isGameComplete()`. -/
def isGameComplete (g : GameState) : Bool :=
  decide (g.matchedPairs.length = g.totalPairs)

/-- The winner computed by `endGame()` (higher score wins, equal scores tie). -/
def winnerOf (g : GameState) : String :=
  if g.aiScore < g.playerScore then "player"
  else if g.playerScore < g.aiScore then "ai"
  else "tie"

/-- `endGame()`: clears the active flag; the result object it builds (winner via
`winnerOf`, scores, move count) goes to storage and the modal, which are I/O. -/
def endGame (g : GameState) : GameState :=
  { g with isGameActive := false }

/-- `handleMatch(card1Index, card2Index)`: push the matched pair, increment the
score of the player whose turn it is; the rest of the method is UI output. -/
def handleMatch (g : GameState) (card1Index card2Index : ℕ) : GameState :=
  let g := { g with matchedPairs := g.matchedPairs ++ [(card1Index, card2Index)] }
  if g.currentPlayer = Player.player then { g with playerScore := g.playerScore + 1 }
  else { g with aiScore := g.aiScore + 1 }

/-- `handleMismatch(card1Index, card2Index)`: the 1500ms delay and the flip-back
are timing/UI effects; the revealed list itself is cleared by `evaluateMove`. -/
def handleMismatch (g : GameState) (_card1Index _card2Index : ℕ) : GameState := g

/-- `evaluateMove()` up to and including the turn handoff. The trailing
"if it is now the turn of the AI, make the AI move" tail call is modelled separately by
`runAITurns`, so that the mutual recursion between `evaluateMove` and `makeAIMove`
becomes an explicit fuelled loop. Yields `none` when fewer than two cards are
flipped or an index is out of range (a `TypeError` in JS). -/
def evaluateMove (g : GameState) (a : AIState) (rnd : List ℚ) :
    Option (GameState × AIState × List ℚ) :=
  match g.flippedCards with
  | card1Index :: card2Index :: _ =>
    match g.cards.get? card1Index, g.cards.get? card2Index with
    | some card1, some card2 =>
      let g := { g with moves := g.moves + 1 }
      let isMatch := decide (card1.pairId = card2.pairId)
      let g := if isMatch then handleMatch g card1Index card2Index
               else handleMismatch g card1Index card2Index
      let a := MemoryAI.recordMoveResult a [card1Index, card2Index] isMatch
                 [card1.symbol, card2.symbol]
      let g := { g with flippedCards := [] }
      if isGameComplete g then some (endGame g, a, rnd)
      else if !isMatch then some (switchTurn g, a, rnd)
      else some (g, a, rnd)
    | _, _ => none
  | _ => none

/-- `makePlayerMove(cardIndex)`: flip (UI), push onto the revealed list, feed the
observation to the AI, and resolve when two cards are revealed. -/
def makePlayerMove (g : GameState) (a : AIState) (rnd : List ℚ) (cardIndex : ℕ) :
    Option (GameState × AIState × List ℚ) :=
  let g := { g with flippedCards := g.flippedCards ++ [cardIndex] }
  match g.cards.get? cardIndex with
  | some card =>
    let (a, rnd) := MemoryAI.observeCard a cardIndex card.symbol true rnd
    if g.flippedCards.length = 2 then evaluateMove g a rnd
    else some (g, a, rnd)
  | none => none

/-- `handleCardClick(cardIndex)`: an invalid click returns with no state change.
(The "start game if not active" line after the validation is dead code: validation
already rejects clicks while the game is inactive.) -/
def handleCardClick (g : GameState) (a : AIState) (rnd : List ℚ) (cardIndex : ℕ) :
    Option (GameState × AIState × List ℚ) :=
  if isValidCardClick g cardIndex then makePlayerMove g a rnd cardIndex
  else some (g, a, rnd)

/-- The reveal phase of `makeAIMove()` after its two guards: ask `makeMove` for a
pair, flip and push both returned indices with no re-validation, then feed both
observations to the AI. `none` models the `TypeError` JS would hit on an
`undefined` entry or an out-of-range index. -/
def aiReveal (g : GameState) (a : AIState) (rnd : List ℚ) :
    Option (GameState × AIState × List ℚ) :=
  let availableCards := getAvailableCards g
  let ((first, second), rnd) := MemoryAI.makeMove a availableCards rnd
  match first, second with
  | some firstCard, some secondCard =>
    let g := { g with flippedCards := g.flippedCards ++ [firstCard] }
    let g := { g with flippedCards := g.flippedCards ++ [secondCard] }
    match g.cards.get? firstCard, g.cards.get? secondCard with
    | some card1, some card2 =>
      let (a, rnd) := MemoryAI.observeCard a firstCard card1.symbol false rnd
      let (a, rnd) := MemoryAI.observeCard a secondCard card2.symbol false rnd
      some (g, a, rnd)
    | _, _ => none
  | _, _ => none

/-- `makeAIMove()` without the trailing recursion into the next turn (see
`runAITurns`): the wrong-turn guard, the starvation guard (fewer than two
available cards: warn and return), then reveal and resolve. -/
def makeAIMove (g : GameState) (a : AIState) (rnd : List ℚ) :
    Option (GameState × AIState × List ℚ) :=
  if g.currentPlayer ≠ Player.ai then some (g, a, rnd)
  else if (getAvailableCards g).length < 2 then some (g, a, rnd)
  else
    match aiReveal g a rnd with
    | some (g, a, rnd) => evaluateMove g a rnd
    | none => none

/-- The chain of AI turns produced by the source recursion
`evaluateMove → makeAIMove → evaluateMove` while the AI keeps matching, as an
explicit fuelled loop; in the source the chain runs only while the game is active
(after `endGame`, `evaluateMove` returns before reaching the AI call). -/
def runAITurns : ℕ → GameState × AIState × List ℚ → Option (GameState × AIState × List ℚ)
  | 0, _ => none
  | fuel + 1, (g, a, rnd) =>
    if g.isGameActive = true ∧ g.currentPlayer = Player.ai then
      match makeAIMove g a rnd with
      | some s => runAITurns fuel s
      | none => none
    else some (g, a, rnd)

/-- `changeDifficulty(difficulty)`: unrecognized levels are rejected with only a
console warning before any state is touched; recognized levels reconfigure the
controller and the AI and start a new game (the settings save and UI update are
I/O effects). -/
def changeDifficulty (g : GameState) (a : AIState) (rnd : List ℚ) (difficulty : String) :
    Option (GameState × AIState × List ℚ) :=
  match DIFFICULTIES difficulty with
  | none => some (g, a, rnd)
  | some cfg =>
    let g := { g with difficulty := difficulty, config := cfg }
    match MemoryAI.setDifficulty a difficulty with
    | Except.ok a => some (setupNewGame g a rnd)
    | Except.error _ => none

end MemoryGame

/-- The state built by the `MemoryGame` constructor. -/
def initialGame : GameState :=
  { cards := [], flippedCards := [], matchedPairs := [], currentPlayer := Player.player,
    playerScore := 0, aiScore := 0, moves := 0, isGameActive := false,
    difficulty := "beginner", config := ⟨4, 4, 7/10⟩, totalPairs := 8 }

/-- The state built by the `MemoryAI` constructor with the "beginner" argument. -/
def initialAI : AIState := MemoryAI.mkAI "beginner" ⟨4, 4, 7/10⟩

/-! ### A concrete match transcript reaching the double-reveal defect

The random stream below drives a full match from `setupNewGame`: first the 15
Fisher-Yates draws (values `99/100`, which make every swap a no-op, so the board
keeps the generated order: positions `2k`, `2k+1` hold pair `k`, and pairs `0`
and `4` share the star symbol); then one retention coin per observation (value
`999/1000` drops the observation, value `0` retains it) and the choice draws of
the AI turns. The human matches six pairs, then reveals `8` (retained by the AI)
and `14` (mismatch), handing the turn to the AI with available cards
`[8, 9, 14, 15]` and belief `{8 ↦ star}`. The AI matches `(14, 15)` by uniform
exploration and keeps the turn with available cards `[8, 9]`, of which only `9`
is unknown, so the exploration fallback fires: the first draw picks `9`, and the
second picks from the available cards with `availableCards[0] = 8` (not the
first pick!) removed, hence `9` again. -/
def c3Stream : List ℚ :=
  (List.replicate 15 (99/100)) ++ (List.replicate 12 (999/1000)) ++ [0, 999/1000] ++
  [1/2, 1/2, 999/1000, 999/1000] ++ [1/2, 0, 999/1000, 999/1000]

/-- The fresh game of the transcript. -/
def c3Start : GameState × AIState × List ℚ :=
  MemoryGame.setupNewGame initialGame initialAI c3Stream

/-- The human reveal requests of the transcript: six matched pairs, then the
mismatch `8` / `14`. -/
def c3Clicks : List ℕ := [0, 1, 2, 3, 4, 5, 6, 7, 10, 11, 12, 13, 8, 14]

/-- The state after the fourteen human reveal requests (turn now with the AI). -/
def c3AfterClicks : Option (GameState × AIState × List ℚ) :=
  c3Clicks.foldlM (fun s c => MemoryGame.handleCardClick s.1 s.2.1 s.2.2 c) c3Start

/-- The state after the first AI turn (the AI matches `(14, 15)` and keeps the
turn). -/
def c3AfterAI1 : Option (GameState × AIState × List ℚ) :=
  c3AfterClicks.bind (fun s => MemoryGame.makeAIMove s.1 s.2.1 s.2.2)

/-- The state in the middle of the second AI turn, after `makeMove` returned and
both returned indices were pushed onto the revealed list. -/
def c3Violation : Option (GameState × AIState × List ℚ) :=
  c3AfterAI1.bind (fun s => MemoryGame.aiReveal s.1 s.2.1 s.2.2)

/-- The state after the second AI turn completes. -/
def c3Final : Option (GameState × AIState × List ℚ) :=
  c3AfterAI1.bind (fun s => MemoryGame.makeAIMove s.1 s.2.1 s.2.2)

/-- The belief state used to evaluate `makeMove` directly on the defective
fallback: the AI remembers card `8` only. -/
def c1State : AIState := { initialAI with memory := [(8, "emoji-star")] }

/-! ### Helper lemmas shared by the claim theorems -/

theorem mathMax_eq (a b : ℚ) : mathMax a b = max a b := by
  rw [mathMax, max_def]

theorem mathMin_eq (a b : ℚ) : mathMin a b = min a b := by
  rw [mathMin, min_def]

theorem mapGet_cons {κ α : Type} [DecidableEq κ] (p : κ × α) (m : List (κ × α)) (k : κ) :
    mapGet? (p :: m) k = if p.1 = k then some p.2 else mapGet? m k := by
  by_cases h : p.1 = k <;> simp [mapGet?, List.find?, h]

theorem mapGet_mapSet_self {κ α : Type} [DecidableEq κ] (m : List (κ × α)) (k : κ) (v : α) :
    mapGet? (mapSet m k v) k = some v := by
  unfold mapSet
  by_cases hhas : mapHas m k = true
  · simp only [hhas, if_true]
    induction m with
    | nil => simp [mapHas, mapGet?] at hhas
    | cons p m ih =>
      by_cases h : p.1 = k
      · simp [mapGet_cons, h]
      · have hhas2 : mapHas m k = true := by
          simpa [mapHas, mapGet_cons, h] using hhas
        simpa [mapGet_cons, h] using ih hhas2
  · simp only [hhas]
    induction m with
    | nil => simp [mapGet_cons]
    | cons p m ih =>
      have h : ¬ p.1 = k := by
        intro h
        exact hhas (by simp [mapHas, mapGet_cons, h])
      have hhas2 : ¬ mapHas m k = true := by
        intro h2
        exact hhas (by simpa [mapHas, mapGet_cons, h] using h2)
      simpa [mapGet_cons, h] using ih hhas2

theorem mapGet_replace_ne {κ α : Type} [DecidableEq κ] (m : List (κ × α)) (k k2 : κ) (v : α)
    (hne : k2 ≠ k) :
    mapGet? (m.map (fun p => if p.1 = k then (k, v) else p)) k2 = mapGet? m k2 := by
  induction m with
  | nil => rfl
  | cons p m ih =>
    by_cases h : p.1 = k
    · have hk : ¬ (k = k2) := fun h2 => hne h2.symm
      have hp : ¬ (p.1 = k2) := by
        rw [h]
        exact hk
      simp only [List.map_cons, if_pos h]
      rw [mapGet_cons, mapGet_cons]
      simp only [hk, hp, if_false]
      exact ih
    · simp only [List.map_cons, if_neg h]
      rw [mapGet_cons, mapGet_cons]
      by_cases h3 : p.1 = k2
      · simp [h3]
      · simp [h3, ih]

theorem mapGet_append_single_ne {κ α : Type} [DecidableEq κ] (m : List (κ × α)) (k k2 : κ)
    (v : α) (hne : k2 ≠ k) :
    mapGet? (m ++ [(k, v)]) k2 = mapGet? m k2 := by
  induction m with
  | nil =>
    have hk : ¬ (k = k2) := fun h2 => hne h2.symm
    simp [mapGet_cons, hk, mapGet?]
  | cons p m ih =>
    rw [List.cons_append, mapGet_cons, mapGet_cons]
    by_cases h3 : p.1 = k2
    · simp [h3]
    · simp [h3, ih]

theorem mapGet_mapSet_ne {κ α : Type} [DecidableEq κ] (m : List (κ × α)) (k k2 : κ) (v : α)
    (hne : k2 ≠ k) : mapGet? (mapSet m k v) k2 = mapGet? m k2 := by
  unfold mapSet
  by_cases hhas : mapHas m k = true
  · simp only [hhas, if_true]
    exact mapGet_replace_ne m k k2 v hne
  · simp only [hhas, if_false]
    exact mapGet_append_single_ne m k k2 v hne

theorem mapHas_iff_mem_keys {κ α : Type} [DecidableEq κ] (m : List (κ × α)) (k : κ) :
    mapHas m k = true ↔ k ∈ m.map Prod.fst := by
  induction m with
  | nil => simp [mapHas, mapGet?]
  | cons p m ih =>
    by_cases h : p.1 = k
    · simp [mapHas, mapGet_cons, h]
    · simp only [mapHas, mapGet_cons, if_neg h, List.map_cons, List.mem_cons]
      rw [← mapHas, ih]
      constructor
      · exact fun h2 => Or.inr h2
      · rintro (h2 | h2)
        · exact absurd h2.symm h
        · exact h2

theorem mapSet_keys_of_has {κ α : Type} [DecidableEq κ] (m : List (κ × α)) (k : κ) (v : α)
    (hhas : mapHas m k = true) :
    (mapSet m k v).map Prod.fst = m.map Prod.fst := by
  unfold mapSet
  simp only [hhas, if_true, List.map_map]
  apply List.map_congr_left
  intro p _
  by_cases h : p.1 = k <;> simp [h]

theorem mapSet_keys_of_not_has {κ α : Type} [DecidableEq κ] (m : List (κ × α)) (k : κ) (v : α)
    (hhas : mapHas m k = false) :
    (mapSet m k v).map Prod.fst = m.map Prod.fst ++ [k] := by
  unfold mapSet
  simp [hhas]

/-- An invalid click is ignored: `handleCardClick` leaves everything unchanged. -/
theorem handleCardClick_of_invalid (g : GameState) (a : AIState) (rnd : List ℚ)
    (cardIndex : ℕ) (h : MemoryGame.isValidCardClick g cardIndex = false) :
    MemoryGame.handleCardClick g a rnd cardIndex = some (g, a, rnd) := by
  unfold MemoryGame.handleCardClick
  simp [h]

/-- While the game is inactive no click is valid. -/
theorem isValidCardClick_of_inactive (g : GameState) (cardIndex : ℕ)
    (h : g.isGameActive = false) : MemoryGame.isValidCardClick g cardIndex = false := by
  unfold MemoryGame.isValidCardClick
  simp [h]

/-! ### C1 -/

unseal Rat.mul Rat.add Rat.sub Rat.inv in
/-- C1: the claim that `makeMove` always returns two distinct members of
`availableIndices` fails at the uniform-choice fallback. With belief `{8 ↦ star}`
and `availableIndices = [8, 9]`, random draws `1/2` then `0` make the fallback
return the index `9` twice (the second draw excludes `availableCards[0] = 8`,
not the first drawn card); and with the singleton `availableIndices = [8]` the
second entry is JS `undefined` (`none`), which is not an element of
`availableIndices` at all. -/
theorem c1_makeMove_fallback_repeats_index :
    MemoryAI.makeMove c1State [8, 9] [1/2, 0] = ((some 9, some 9), []) ∧
    MemoryAI.makeMove c1State [8] [0, 0] = ((some 8, none), []) := by
  exact ⟨by decide, by decide⟩

/-! ### C2 -/

/-- C2 (counterexample): called directly with an unrecognized difficulty level,
`MemoryAI.setDifficulty` is not a silent no-op: the profile lookup yields
`undefined` and reading `aiAccuracy` from it throws a `TypeError` (after
`this.difficulty` and `this.config` were already overwritten), refuting the
claim that configuring via `setDifficulty` does not throw and retains the prior
profile. -/
theorem c2_setDifficulty_throws_on_unknown_level :
    MemoryAI.setDifficulty initialAI "legendary" =
      Except.error "TypeError: cannot read properties of undefined" := rfl

/-- C2 (amended): for every unrecognized difficulty level, the game-level entry
point `changeDifficulty` is a silent no-op that leaves the game state, the AI
state (hence accuracy floor, board dimensions and belief state) and the random
stream unchanged — it rejects the level before touching anything, so
`setDifficulty` is never reached with an invalid level; `setDifficulty` itself,
called directly with such a level, throws instead of no-oping. -/
theorem c2_changeDifficulty_unknown_level_noop (g : GameState) (a : AIState)
    (rnd : List ℚ) (level : String) (h : DIFFICULTIES level = none) :
    MemoryGame.changeDifficulty g a rnd level = some (g, a, rnd) ∧
    ∃ msg, MemoryAI.setDifficulty a level = Except.error msg := by
  unfold MemoryGame.changeDifficulty MemoryAI.setDifficulty
  rw [h]
  exact ⟨rfl, _, rfl⟩

set_option maxRecDepth 20000 in
unseal Rat.mul Rat.add Rat.sub Rat.inv in
/-- C3: the claimed invariant fails on a reachable state of the opponent-move
path. In the transcript driven by `c3Stream` (fresh beginner game, fourteen
human reveals, then the AI turns), the reveal phase of the second AI turn
pushes the single unknown index `9` twice — `makeMove` returned it twice via
the defective exploration fallback — so the revealed-but-unresolved list
becomes `[9, 9]`: length 2 but with a duplicate, violating the no-duplicates
invariant. Completing that turn records the degenerate "matched pair"
`(9, 9)`, after which the match is flagged complete although card `8` was
never matched. -/
theorem c3_duplicate_reveal_reachable :
    c3Violation.map (fun s => s.1.flippedCards) = some [9, 9] ∧
    c3Final.map (fun s => (s.1.matchedPairs, s.1.isGameActive)) =
      some ([(0, 1), (2, 3), (4, 5), (6, 7), (10, 11), (12, 13), (14, 15), (9, 9)],
        false) := by
  exact ⟨by decide, by decide⟩

/-- Witness for C2 at the concrete level "legendary". -/
theorem c2_changeDifficulty_unknown_level_noop_witness :
    DIFFICULTIES "legendary" = none ∧
    (MemoryGame.changeDifficulty initialGame initialAI [] "legendary" =
        some (initialGame, initialAI, []) ∧
      ∃ msg, MemoryAI.setDifficulty initialAI "legendary" = Except.error msg) :=
  ⟨rfl, c2_changeDifficulty_unknown_level_noop initialGame initialAI [] "legendary" rfl⟩

/-! ### C8 -/

/-- C8: a reveal request that fails validation for any of the five reasons —
wrong turn, match not active, index already revealed this turn, index already
matched, or two cards already revealed — is ignored: `handleCardClick` returns
with the game state, the AI state and the random stream exactly as they were. -/
theorem c8_invalid_click_ignored (g : GameState) (a : AIState) (rnd : List ℚ)
    (cardIndex : ℕ)
    (h : g.currentPlayer ≠ Player.player ∨ g.isGameActive = false ∨
         g.flippedCards.contains cardIndex = true ∨
         MemoryGame.isCardMatched g cardIndex = true ∨
         2 ≤ g.flippedCards.length) :
    MemoryGame.handleCardClick g a rnd cardIndex = some (g, a, rnd) := by
  apply handleCardClick_of_invalid
  unfold MemoryGame.isValidCardClick
  rcases h with h | h | h | h | h
  · simp [h]
  · simp [h]
  · have hmem : cardIndex ∈ g.flippedCards := by simpa using h
    simp [hmem]
  · simp [h]
  · simp [Nat.not_lt.mpr h]

/-- Witness for C8: a click in the constructor state (game not active) changes
nothing. -/
theorem c8_invalid_click_ignored_witness :
    initialGame.isGameActive = false ∧
    MemoryGame.handleCardClick initialGame initialAI [] 0 =
      some (initialGame, initialAI, []) :=
  ⟨rfl, c8_invalid_click_ignored initialGame initialAI [] 0 (Or.inr (Or.inl rfl))⟩

/-! ### C7 -/

/-- C7: resolving two revealed cards keeps the turn with the revealing player
when the pair identifiers are equal; when they differ, the turn passes to the
other player (as computed by `switchTurn`) and both cards return to the hidden
state: the revealed list is cleared and neither card is in any matched pair. -/
theorem c7_resolution_turn (g : GameState) (a : AIState) (rnd : List ℚ)
    (c1 c2 : ℕ) (rest : List ℕ) (k1 k2 : Card)
    (hf : g.flippedCards = c1 :: c2 :: rest)
    (h1 : g.cards.get? c1 = some k1) (h2 : g.cards.get? c2 = some k2)
    (hlt : g.matchedPairs.length < g.totalPairs)
    (hm1 : MemoryGame.isCardMatched g c1 = false)
    (hm2 : MemoryGame.isCardMatched g c2 = false) :
    ∃ g2 a2 rnd2, MemoryGame.evaluateMove g a rnd = some (g2, a2, rnd2) ∧
      (k1.pairId = k2.pairId → g2.currentPlayer = g.currentPlayer) ∧
      (k1.pairId ≠ k2.pairId →
        g2.currentPlayer = (MemoryGame.switchTurn g).currentPlayer ∧
        g2.flippedCards = [] ∧
        MemoryGame.isCardMatched g2 c1 = false ∧
        MemoryGame.isCardMatched g2 c2 = false) := by
  obtain ⟨cards, flipped, matched, cp, ps, asc, mv, act, diff, cfg, tp⟩ := g
  simp only [MemoryGame.isCardMatched] at hm1 hm2
  dsimp only at hf h1 h2 hlt hm1 hm2 ⊢
  subst hf
  unfold MemoryGame.evaluateMove
  dsimp only
  rw [h1, h2]
  dsimp only
  by_cases hp : k1.pairId = k2.pairId
  · have hd : decide (k1.pairId = k2.pairId) = true := decide_eq_true hp
    simp only [hd, if_true, Bool.not_true, Bool.false_eq_true, if_false]
    by_cases hcp : cp = Player.player
    · simp only [MemoryGame.handleMatch, hcp, if_true, if_false]
      unfold MemoryGame.isGameComplete MemoryGame.endGame
      dsimp only
      by_cases hc : (matched ++ [(c1, c2)]).length = tp
      · simp only [decide_eq_true hc, if_true]
        exact ⟨_, _, _, rfl, fun _ => rfl, fun hne => absurd hp hne⟩
      · simp only [decide_eq_false hc, Bool.false_eq_true, if_false]
        exact ⟨_, _, _, rfl, fun _ => rfl, fun hne => absurd hp hne⟩
    · simp only [MemoryGame.handleMatch, hcp, if_false]
      unfold MemoryGame.isGameComplete MemoryGame.endGame
      dsimp only
      by_cases hc : (matched ++ [(c1, c2)]).length = tp
      · simp only [decide_eq_true hc, if_true]
        exact ⟨_, _, _, rfl, fun _ => rfl, fun hne => absurd hp hne⟩
      · simp only [decide_eq_false hc, Bool.false_eq_true, if_false]
        exact ⟨_, _, _, rfl, fun _ => rfl, fun hne => absurd hp hne⟩
  · have hd : decide (k1.pairId = k2.pairId) = false := decide_eq_false hp
    simp only [hd, Bool.false_eq_true, if_false, Bool.not_false, if_true]
    simp only [MemoryGame.handleMismatch]
    unfold MemoryGame.isGameComplete
    dsimp only
    simp only [decide_eq_false (Nat.ne_of_lt hlt), Bool.false_eq_true, if_false]
    refine ⟨_, _, _, rfl, fun heq => absurd heq hp, fun _ => ?_⟩
    refine ⟨?_, rfl, ?_, ?_⟩
    · unfold MemoryGame.switchTurn
      dsimp only
    · simpa [MemoryGame.switchTurn, MemoryGame.isCardMatched] using hm1
    · simpa [MemoryGame.switchTurn, MemoryGame.isCardMatched] using hm2

/-- The board of the C7 witness: two pairs laid out in order. -/
def c7WitnessGame : GameState :=
  { initialGame with
      cards := [⟨"emoji-star", "star", 0⟩, ⟨"emoji-star", "star", 0⟩,
                ⟨"emoji-circle", "circle", 1⟩, ⟨"emoji-circle", "circle", 1⟩],
      flippedCards := [0, 2], isGameActive := true, totalPairs := 2 }

/-- The game state after resolving the mismatched reveals `0` and `2` of
`c7WitnessGame`: move counted, revealed list cleared, turn passed to the AI. -/
def c7WitnessOutG : GameState :=
  { c7WitnessGame with moves := 1, flippedCards := [], currentPlayer := Player.ai }

/-- The AI state after that resolution. -/
def c7WitnessOutA : AIState :=
  MemoryAI.recordMoveResult initialAI [0, 2] false ["emoji-star", "emoji-circle"]

unseal Rat.mul Rat.add Rat.sub Rat.inv in
/-- Witness for C7: resolving the mismatched reveals `0` and `2` on the two-pair
board hands the turn to the AI and leaves both cards hidden. -/
theorem c7_resolution_turn_witness :
    c7WitnessGame.matchedPairs.length < c7WitnessGame.totalPairs ∧
    c7WitnessOutG.currentPlayer = (MemoryGame.switchTurn c7WitnessGame).currentPlayer ∧
    c7WitnessOutG.flippedCards = [] ∧
    MemoryGame.isCardMatched c7WitnessOutG 0 = false ∧
    MemoryGame.isCardMatched c7WitnessOutG 2 = false := by
  obtain ⟨g2, a2, rnd2, heq, -, hmm⟩ :=
    c7_resolution_turn c7WitnessGame initialAI [] 0 2 []
      ⟨"emoji-star", "star", 0⟩ ⟨"emoji-circle", "circle", 1⟩
      rfl rfl rfl (by decide) rfl rfl
  have hval : MemoryGame.evaluateMove c7WitnessGame initialAI [] =
      some (c7WitnessOutG, c7WitnessOutA, []) := by decide
  rw [heq] at hval
  rw [Option.some.injEq, Prod.mk.injEq, Prod.mk.injEq] at hval
  obtain ⟨hg, -, -⟩ := hval
  obtain ⟨hturn, hflip, hmc1, hmc2⟩ := hmm (by decide)
  rw [hg] at hturn hflip hmc1 hmc2
  exact ⟨by decide, hturn, hflip, hmc1, hmc2⟩

/-! ### C4 -/

/-- C4: over one resolution step the matched-pair count never decreases and the
pair total is unchanged; if the match was still running and unfinished before
the step, the active flag is cleared by the step exactly when the matched-pair
count has just reached the pair total (so the transition to Finished happens
exactly at the first resolution reaching N/2); and once the flag is cleared,
every further reveal request is ignored unchanged, so the transition happens at
most once. -/
theorem c4_matched_count_monotone_finish (g : GameState) (a : AIState) (rnd : List ℚ)
    (g2 : GameState) (a2 : AIState) (rnd2 : List ℚ)
    (h : MemoryGame.evaluateMove g a rnd = some (g2, a2, rnd2)) :
    g.matchedPairs.length ≤ g2.matchedPairs.length ∧
    g2.totalPairs = g.totalPairs ∧
    (g.isGameActive = true → g.matchedPairs.length < g.totalPairs →
      (g2.isGameActive = false ↔ g2.matchedPairs.length = g.totalPairs)) ∧
    (∀ i, g2.isGameActive = false →
      MemoryGame.handleCardClick g2 a2 rnd2 i = some (g2, a2, rnd2)) := by
  have hclick : ∀ i, g2.isGameActive = false →
      MemoryGame.handleCardClick g2 a2 rnd2 i = some (g2, a2, rnd2) := by
    intro i hin
    exact handleCardClick_of_invalid g2 a2 rnd2 i (isValidCardClick_of_inactive g2 i hin)
  unfold MemoryGame.evaluateMove at h
  split at h
  any_goals exact Option.noConfusion h
  rename_i fl c1 c2 rest hflip
  split at h
  any_goals exact Option.noConfusion h
  rename_i o1 o2 k1 k2 hk1 hk2
  dsimp only at h
  by_cases hp : k1.pairId = k2.pairId
  · simp only [decide_eq_true hp, if_true, Bool.not_true, Bool.false_eq_true, if_false] at h
    by_cases hcp : g.currentPlayer = Player.player
    all_goals simp only [MemoryGame.handleMatch, hcp, if_true, if_false] at h
    all_goals unfold MemoryGame.isGameComplete MemoryGame.endGame at h
    all_goals dsimp only at h
    all_goals by_cases hc : (g.matchedPairs ++ [(c1, c2)]).length = g.totalPairs
    all_goals simp only [hc, decide_True, decide_False, Bool.false_eq_true,
      if_true, if_false] at h
    all_goals rw [Option.some.injEq, Prod.mk.injEq, Prod.mk.injEq] at h
    all_goals obtain ⟨hg, -, -⟩ := h
    all_goals subst hg
    all_goals refine ⟨by simp, rfl, ?_, hclick⟩
    all_goals intro hact hltm
    all_goals simp_all
  · simp only [decide_eq_false hp, Bool.false_eq_true, if_false, Bool.not_false, if_true] at h
    simp only [MemoryGame.handleMismatch] at h
    unfold MemoryGame.isGameComplete MemoryGame.switchTurn MemoryGame.endGame at h
    dsimp only at h
    by_cases hc : g.matchedPairs.length = g.totalPairs
    all_goals simp only [hc, decide_True, decide_False, Bool.false_eq_true,
      if_true, if_false] at h
    all_goals rw [Option.some.injEq, Prod.mk.injEq, Prod.mk.injEq] at h
    all_goals obtain ⟨hg, -, -⟩ := h
    all_goals subst hg
    all_goals refine ⟨by simp, rfl, ?_, hclick⟩
    all_goals intro hact hltm
    · simp_all
    · simp_all [Nat.ne_of_lt hltm]

/-- The C4 witness input: the two-pair board with the matching reveals `0`, `1`. -/
def c4WitnessIn : GameState := { c7WitnessGame with flippedCards := [0, 1] }

/-- The game state after resolving that match. -/
def c4WitnessOutG : GameState :=
  { c4WitnessIn with
      moves := 1, matchedPairs := [(0, 1)], playerScore := 1,
      flippedCards := [] }

/-- The AI state after resolving that match. -/
def c4WitnessOutA : AIState :=
  MemoryAI.recordMoveResult initialAI [0, 1] true ["emoji-star", "emoji-star"]

unseal Rat.mul Rat.add Rat.sub Rat.inv in
/-- Witness for C4: resolving the matching reveals `0` and `1` on the two-pair
board pushes the first matched pair, the count grows and the match stays active
(one of two pairs found). -/
theorem c4_matched_count_monotone_finish_witness :
    MemoryGame.evaluateMove c4WitnessIn initialAI [] =
      some (c4WitnessOutG, c4WitnessOutA, []) ∧
    c4WitnessIn.matchedPairs.length ≤ c4WitnessOutG.matchedPairs.length ∧
    (c4WitnessIn.isGameActive = true →
      c4WitnessIn.matchedPairs.length < c4WitnessIn.totalPairs →
      (c4WitnessOutG.isGameActive = false ↔
        c4WitnessOutG.matchedPairs.length = c4WitnessIn.totalPairs)) := by
  have hval : MemoryGame.evaluateMove c4WitnessIn initialAI [] =
      some (c4WitnessOutG, c4WitnessOutA, []) := by decide
  have hthm := c4_matched_count_monotone_finish c4WitnessIn initialAI []
    c4WitnessOutG c4WitnessOutA [] hval
  exact ⟨hval, hthm.1, hthm.2.2.1⟩

/-! ### C5 -/

theorem symbolCounts_getD (s : String) :
    ∀ (mem : List (ℕ × String)) (sc : List (String × ℕ)),
      (mapGet? (mem.foldl (fun sc p => mapSet sc p.2 ((mapGet? sc p.2).getD 0 + 1)) sc) s).getD 0
        = (mapGet? sc s).getD 0 + (mem.map Prod.snd).count s := by
  intro mem
  induction mem with
  | nil =>
    intro sc
    simp
  | cons p mem ih =>
    intro sc
    rw [List.foldl_cons, ih]
    by_cases hps : p.2 = s
    · subst hps
      rw [mapGet_mapSet_self]
      simp [List.count_cons]
      omega
    · rw [mapGet_mapSet_ne sc p.2 s _ (fun h => hps h.symm)]
      have hbeq : (p.2 == s) = false := by
        simp [hps]
      simp [List.count_cons, hbeq]

theorem fold_fill_lookup {α : Type} (mem : List (ℕ × String)) (v : α) :
    ∀ (L : List ℕ) (mx : List (ℕ × α)) (i : ℕ),
      (mapGet? mx i = some v ∨ (i ∈ L ∧ mapHas mem i = false)) →
      mapGet? (L.foldl (fun mx j => if mapHas mem j then mx else mapSet mx j v) mx) i
        = some v := by
  intro L
  induction L with
  | nil =>
    intro mx i h
    rcases h with h | ⟨h, -⟩
    · simpa using h
    · simp at h
  | cons j L ih =>
    intro mx i h
    rw [List.foldl_cons]
    rcases h with h | ⟨hmem, hunk⟩
    · apply ih
      left
      by_cases hj : mapHas mem j = true
      · simpa [hj] using h
      · simp only [Bool.not_eq_true] at hj
        simp only [hj, Bool.false_eq_true, if_false]
        by_cases hij : i = j
        · subst hij
          rw [mapGet_mapSet_self]
          -- previous value was already v? not necessarily: but i unknown means set writes v
          -- h : mapGet? mx i = some v; overwrite with v keeps some v
        · rw [mapGet_mapSet_ne mx j i v hij]
          exact h
    · rw [List.mem_cons] at hmem
      rcases hmem with hij | hmem
      · subst hij
        simp only [hunk, Bool.false_eq_true, if_false]
        apply ih
        left
        exact mapGet_mapSet_self mx i v
      · exact ih _ i (Or.inr ⟨hmem, hunk⟩)

theorem mapGet_table {α : Type} (f : String → α) :
    ∀ (L : List String) (s : String), s ∈ L →
      mapGet? (L.map (fun t => (t, f t))) s = some (f s) := by
  intro L
  induction L with
  | nil =>
    intro s hs
    simp at hs
  | cons t L ih =>
    intro s hs
    rw [List.map_cons, mapGet_cons]
    by_cases hts : t = s
    · subst hts
      simp
    · simp only [hts, if_false]
      rw [List.mem_cons] at hs
      rcases hs with hs | hs
      · exact absurd hs.symm hts
      · exact ih s hs

theorem countP_or_disjoint {α : Type} (p q : α → Bool)
    (hdis : ∀ x, ¬(p x = true ∧ q x = true)) :
    ∀ l : List α, l.countP (fun x => p x || q x) = l.countP p + l.countP q := by
  intro l
  induction l with
  | nil => simp
  | cons x l ih =>
    by_cases hp : p x = true
    · have hq : q x = false := by
        rcases Bool.eq_false_or_eq_true (q x) with h | h
        · exact absurd ⟨hp, h⟩ (hdis x)
        · exact h
      rw [List.countP_cons, List.countP_cons, List.countP_cons]
      simp [hp, hq, ih]
      omega
    · simp only [Bool.not_eq_true] at hp
      rw [List.countP_cons, List.countP_cons, List.countP_cons]
      by_cases hq : q x = true <;> simp [hp, hq, ih] <;> omega

theorem filter_mem_keys_length :
    ∀ (keys : List ℕ), keys.Nodup → ∀ n, (∀ k ∈ keys, k < n) →
      ((List.range n).countP (fun i => decide (i ∈ keys))) = keys.length := by
  intro keys
  induction keys with
  | nil =>
    intro _ n _
    simp
  | cons k ks ih =>
    intro hnd n hb
    have hknotin : k ∉ ks := (List.nodup_cons.mp hnd).1
    have hcong : ∀ i ∈ List.range n,
        (decide (i ∈ k :: ks) = true) ↔ ((decide (i = k) || decide (i ∈ ks)) = true) := by
      intro i _
      by_cases h1 : i = k <;> by_cases h2 : i ∈ ks <;> simp [h1, h2]
    rw [List.countP_congr hcong]
    rw [countP_or_disjoint (fun i => decide (i = k)) (fun i => decide (i ∈ ks))
      (by
        intro x hx
        obtain ⟨h1, h2⟩ := hx
        simp only [decide_eq_true_eq] at h1 h2
        exact hknotin (h1 ▸ h2))]
    have hcount : (List.range n).countP (fun i => decide (i = k)) = 1 := by
      have heq : (List.range n).countP (fun i => decide (i = k)) = (List.range n).count k := by
        rw [List.count]
        apply List.countP_congr
        intro i _
        by_cases h : i = k <;> simp [h]
      rw [heq]
      exact List.count_eq_one_of_mem (List.nodup_range n)
        (List.mem_range.mpr (hb k (by simp)))
    rw [hcount, ih (List.nodup_cons.mp hnd).2 n (fun z hz => hb z (by simp [hz]))]
    simp [Nat.add_comm]

theorem countP_not_add {α : Type} (p : α → Bool) :
    ∀ l : List α, l.countP p + l.countP (fun x => ! p x) = l.length := by
  intro l
  induction l with
  | nil => simp
  | cons x l ih =>
    rw [List.countP_cons, List.countP_cons]
    by_cases h : p x = true <;> simp [h] <;> omega

theorem mapHas_eq_decide_mem {α : Type} (m : List (ℕ × α)) (k : ℕ) :
    mapHas m k = decide (k ∈ m.map Prod.fst) := by
  by_cases h : k ∈ m.map Prod.fst
  · simp [h, (mapHas_iff_mem_keys m k).mpr h]
  · simp only [h, decide_False]
    rcases Bool.eq_false_or_eq_true (mapHas m k) with hh | hh
    · exact absurd ((mapHas_iff_mem_keys m k).mp hh) h
    · exact hh

theorem unknown_positions_count (mem : List (ℕ × String)) (n : ℕ)
    (hnd : (mem.map Prod.fst).Nodup) (hb : ∀ k ∈ mem.map Prod.fst, k < n) :
    ((List.range n).filter (fun i => ! mapHas mem i)).length = n - mem.length := by
  have hsplit : (List.range n).countP (fun i => mapHas mem i)
      + (List.range n).countP (fun i => ! mapHas mem i) = n := by
    rw [countP_not_add (fun i => mapHas mem i) (List.range n), List.length_range]
  have hknown : (List.range n).countP (fun i => mapHas mem i) = mem.length := by
    have : (List.range n).countP (fun i => mapHas mem i)
        = (List.range n).countP (fun i => decide (i ∈ mem.map Prod.fst)) := by
      apply List.countP_congr
      intro i _
      rw [mapHas_eq_decide_mem]
    rw [this, filter_mem_keys_length (mem.map Prod.fst) hnd n hb, List.length_map]
  rw [← List.countP_eq_length_filter]
  omega

theorem mapSet_keys_nodup {α : Type} (m : List (ℕ × α)) (k : ℕ) (v : α)
    (hnd : (m.map Prod.fst).Nodup) : ((mapSet m k v).map Prod.fst).Nodup := by
  rcases Bool.eq_false_or_eq_true (mapHas m k) with hh | hh
  · rw [mapSet_keys_of_has m k v hh]
    exact hnd
  · rw [mapSet_keys_of_not_has m k v hh]
    rw [List.nodup_append]
    refine ⟨hnd, List.nodup_singleton k, ?_⟩
    intro x hx
    simp only [List.mem_singleton]
    intro hxk
    subst hxk
    exact absurd ((mapHas_iff_mem_keys m x).mpr hx) (by simp [hh])

theorem mapSet_keys_bound {α : Type} (m : List (ℕ × α)) (k : ℕ) (v : α) (n : ℕ)
    (hb : ∀ z ∈ m.map Prod.fst, z < n) (hk : k < n) :
    ∀ z ∈ (mapSet m k v).map Prod.fst, z < n := by
  rcases Bool.eq_false_or_eq_true (mapHas m k) with hh | hh
  · rw [mapSet_keys_of_has m k v hh]
    exact hb
  · rw [mapSet_keys_of_not_has m k v hh]
    intro z hz
    rw [List.mem_append] at hz
    rcases hz with hz | hz
    · exact hb z hz
    · simp only [List.mem_singleton] at hz
      exact hz ▸ hk

/-- The probability estimate stored for position `i` and symbol `s` in the
probability matrix, as `probabilityMatrix.get(i)?.[s] || 0` reads it. -/
def probEstimate (a : AIState) (i : ℕ) (s : String) : ℚ :=
  ((mapGet? a.probabilityMatrix i).bind (fun ps => mapGet? ps s)).getD 0

theorem updateProbabilities_memory (a : AIState) (sym0 : String) :
    (MemoryAI.updateProbabilities a sym0).memory = a.memory := rfl

theorem updateProbabilities_estimate (a : AIState) (sym0 : String)
    (i : ℕ) (hi : i < a.config.rows * a.config.cols)
    (hunk : mapHas a.memory i = false)
    (s : String) (hs : s ∈ SYMBOLS) :
    probEstimate (MemoryAI.updateProbabilities a sym0) i s =
      max 0 (((a.config.rows * a.config.cols : ℚ) / (SYMBOLS.length : ℚ)
          - ((a.memory.map Prod.snd).count s : ℚ))
        / ((a.config.rows * a.config.cols : ℚ) - (a.memory.length : ℚ))) := by
  unfold probEstimate MemoryAI.updateProbabilities
  dsimp only
  rw [fold_fill_lookup a.memory _ (List.range (a.config.rows * a.config.cols))
    a.probabilityMatrix i (Or.inr ⟨List.mem_range.mpr hi, hunk⟩)]
  rw [Option.some_bind]
  rw [mapGet_table _ SYMBOLS s hs]
  rw [Option.getD_some]
  rw [symbolCounts_getD s a.memory []]
  simp [mapGet?, mathMax_eq]

/-- C5: after every observation (retained or not — in particular after every
retained one), for every position `i` of the board not in the belief mapping
and every symbol `s` of the alphabet, the stored probability estimate for
`(i, s)` equals `max 0 ((totalCards / |SYMBOLS| - seen s) / (totalCards -
|belief|))`, where `seen s` counts the occurrences of `s` among the remembered
symbols; moreover the code denominator `totalCards - |belief|` equals the
number of board positions not in the belief mapping, which is the
denominator the claim names. -/
theorem c5_probability_estimate (a : AIState) (cardIndex : ℕ) (symbol : String)
    (isPlayerMove : Bool) (rnd : List ℚ)
    (hnd : (a.memory.map Prod.fst).Nodup)
    (hsub : ∀ k ∈ a.memory.map Prod.fst, k < a.config.rows * a.config.cols)
    (hidx : cardIndex < a.config.rows * a.config.cols)
    (i : ℕ) (hi : i < a.config.rows * a.config.cols)
    (hunk : mapHas (MemoryAI.observeCard a cardIndex symbol isPlayerMove rnd).1.memory i
      = false)
    (s : String) (hs : s ∈ SYMBOLS) :
    probEstimate (MemoryAI.observeCard a cardIndex symbol isPlayerMove rnd).1 i s =
      max 0 (((a.config.rows * a.config.cols : ℚ) / (SYMBOLS.length : ℚ)
          - (((MemoryAI.observeCard a cardIndex symbol isPlayerMove rnd).1.memory.map
              Prod.snd).count s : ℚ))
        / ((a.config.rows * a.config.cols : ℚ)
          - ((MemoryAI.observeCard a cardIndex symbol isPlayerMove rnd).1.memory.length : ℚ))) ∧
    ((List.range (a.config.rows * a.config.cols)).filter
        (fun p => ! mapHas (MemoryAI.observeCard a cardIndex symbol isPlayerMove rnd).1.memory p)).length
      = a.config.rows * a.config.cols
        - (MemoryAI.observeCard a cardIndex symbol isPlayerMove rnd).1.memory.length := by
  unfold MemoryAI.observeCard at hunk ⊢
  dsimp only at hunk ⊢
  by_cases hcoin : (draw rnd).1 < a.memoryAccuracy
  · rw [if_pos hcoin] at hunk ⊢
    cases isPlayerMove
    · exact ⟨updateProbabilities_estimate
        { a with memory := mapSet a.memory cardIndex symbol,
                 revealedCards := mapSet a.revealedCards cardIndex
                   ⟨symbol, a.moveCount, false⟩ } symbol i hi hunk s hs,
        unknown_positions_count (mapSet a.memory cardIndex symbol)
          (a.config.rows * a.config.cols) (mapSet_keys_nodup _ _ _ hnd)
          (mapSet_keys_bound _ _ _ _ hsub hidx)⟩
    · exact ⟨updateProbabilities_estimate
        { a with memory := mapSet a.memory cardIndex symbol,
                 revealedCards := mapSet a.revealedCards cardIndex
                   ⟨symbol, a.moveCount, true⟩ } symbol i hi hunk s hs,
        unknown_positions_count (mapSet a.memory cardIndex symbol)
          (a.config.rows * a.config.cols) (mapSet_keys_nodup _ _ _ hnd)
          (mapSet_keys_bound _ _ _ _ hsub hidx)⟩
  · rw [if_neg hcoin] at hunk ⊢
    cases isPlayerMove
    all_goals exact ⟨updateProbabilities_estimate a symbol i hi hunk s hs,
      unknown_positions_count a.memory (a.config.rows * a.config.cols) hnd hsub⟩

unseal Rat.mul Rat.add Rat.sub Rat.inv in
/-- Witness for C5: a fresh beginner AI observes card 3 (a star) and retains it
(the single stream value 0 is below the accuracy); position 5 is unknown, and
the estimate stored for the star symbol there is max 0 ((4 - 1) / (16 - 1)). -/
theorem c5_probability_estimate_witness :
    (initialAI.memory.map Prod.fst).Nodup ∧
    mapHas (MemoryAI.observeCard initialAI 3 "emoji-star" false [0]).1.memory 5 = false ∧
    probEstimate (MemoryAI.observeCard initialAI 3 "emoji-star" false [0]).1 5 "emoji-star"
      = max 0 (((initialAI.config.rows * initialAI.config.cols : ℚ) / (SYMBOLS.length : ℚ)
          - (((MemoryAI.observeCard initialAI 3 "emoji-star" false [0]).1.memory.map
              Prod.snd).count "emoji-star" : ℚ))
        / ((initialAI.config.rows * initialAI.config.cols : ℚ)
          - ((MemoryAI.observeCard initialAI 3 "emoji-star" false [0]).1.memory.length : ℚ))) :=
  ⟨by decide, by decide,
    (c5_probability_estimate initialAI 3 "emoji-star" false [0] (by decide)
      (by decide) (by decide) 5 (by decide) (by decide) "emoji-star" (by decide)).1⟩

/-! ### C9 -/

theorem getD_cons_set_perm {α : Type} (xs : List α) :
    ∀ (k : ℕ) (x d : α), k < xs.length →
      List.Perm (xs.getD k d :: xs.set k x) (x :: xs) := by
  induction xs with
  | nil =>
    intro k x d h
    simp at h
  | cons y ys ih =>
    intro k x d h
    cases k with
    | zero => simpa using List.Perm.swap x y ys
    | succ k =>
      have hk : k < ys.length := by simpa using h
      have step1 := List.Perm.swap y (ys.getD k d) (ys.set k x)
      have step2 := (ih k x d hk).cons y
      have step3 := List.Perm.swap x y ys
      simpa using (step1.trans step2).trans step3

theorem set_getD_same {α : Type} (l : List α) (i j : ℕ) (d : α) (hj : j < l.length) :
    (l.set i (l.getD j d)).getD j d = l.getD j d := by
  by_cases hij : i = j
  · subst hij
    rw [List.getD_eq_getElem?_getD, List.getElem?_set_self (by assumption),
      List.getD_eq_getElem?_getD]
    simp
  · rw [List.getD_eq_getElem?_getD, List.getElem?_set_ne hij, List.getD_eq_getElem?_getD]

theorem swapAt_perm {α : Type} (l : List α) (i j : ℕ) (d : α)
    (hi : i < l.length) (hj : j < l.length) : List.Perm (swapAt l i j d) l := by
  unfold swapAt
  have hlen : j < (l.set i (l.getD j d)).length := by simpa using hj
  have p2 := getD_cons_set_perm (l.set i (l.getD j d)) j (l.getD i d) d hlen
  have p1 := getD_cons_set_perm l i (l.getD j d) d hi
  rw [set_getD_same l i j d hj] at p2
  exact (p2.trans p1).cons_inv

theorem shuffleGo_perm {α : Type} (d : α) :
    ∀ (i : ℕ) (l : List α) (rnd : List ℚ),
      (∀ q ∈ rnd, 0 ≤ q ∧ q < 1) → i < l.length →
      List.Perm (shuffleGo d l rnd i).1 l := by
  intro i
  induction i with
  | zero =>
    intro l rnd _ _
    exact List.Perm.refl l
  | succ i ih =>
    intro l rnd hr hi
    have key : ∀ (r : ℚ) (rest : List ℚ), 0 ≤ r → r < 1 →
        (∀ q ∈ rest, 0 ≤ q ∧ q < 1) →
        List.Perm (shuffleGo d (swapAt l (i + 1) ((r * ((i : ℚ) + 2)).floor.toNat) d)
          rest i).1 l := by
      intro r rest h0 h1 hrest
      have hflt : (r * ((i : ℚ) + 2)).floor < (i : ℤ) + 2 := by
        by_contra hcon
        push_neg at hcon
        have hle : (((i : ℤ) + 2 : ℤ) : ℚ) ≤ r * ((i : ℚ) + 2) := Rat.le_floor.mp hcon
        have hpos : (0 : ℚ) < (i : ℚ) + 2 := by positivity
        have hlt : r * ((i : ℚ) + 2) < (i : ℚ) + 2 := by nlinarith
        push_cast at hle
        linarith
      have hj : (r * ((i : ℚ) + 2)).floor.toNat < l.length := by
        have : (r * ((i : ℚ) + 2)).floor.toNat ≤ i + 1 := by
          rw [Int.toNat_le]
          push_cast
          omega
        omega
      have hperm := swapAt_perm l (i + 1) ((r * ((i : ℚ) + 2)).floor.toNat) d hi hj
      have hlen : i < (swapAt l (i + 1) ((r * ((i : ℚ) + 2)).floor.toNat) d).length := by
        rw [hperm.length_eq]
        omega
      exact (ih _ rest hrest hlen).trans hperm
    cases rnd with
    | nil => exact key 0 [] le_rfl (by norm_num) (by simp)
    | cons q rest =>
      exact key q rest (hr q (by simp)).1 (hr q (by simp)).2
        (fun z hz => hr z (by simp [hz]))

theorem shuffleArray_perm {α : Type} (d : α) (l : List α) (rnd : List ℚ)
    (hr : ∀ q ∈ rnd, 0 ≤ q ∧ q < 1) : List.Perm (shuffleArray d l rnd).1 l := by
  unfold shuffleArray
  cases l with
  | nil => exact List.Perm.refl _
  | cons x xs => simpa using shuffleGo_perm d xs.length (x :: xs) rnd hr (by simp)

theorem cardPairs_filter_length :
    ∀ (N : ℕ) (acc : List Card) (p : ℕ),
      (((List.range N).foldl
          (fun acc i =>
            let symbolIndex := i % SYMBOLS.length
            acc ++ [⟨SYMBOLS.getD symbolIndex "", SYMBOL_NAMES.getD symbolIndex "", i⟩,
                    ⟨SYMBOLS.getD symbolIndex "", SYMBOL_NAMES.getD symbolIndex "", i⟩]) acc).filter
        (fun c => decide (c.pairId = p))).length
      = (acc.filter (fun c => decide (c.pairId = p))).length + (if p < N then 2 else 0) := by
  intro N
  induction N with
  | zero =>
    intro acc p
    simp
  | succ N ih =>
    intro acc p
    rw [List.range_succ, List.foldl_append, List.foldl_cons, List.foldl_nil]
    dsimp only
    rw [List.filter_append, List.length_append, ih acc p]
    by_cases hpN : p = N
    · subst hpN
      simp [Nat.lt_irrefl, Nat.lt_succ_iff]
    · have : ¬ (N = p) := fun h => hpN h.symm
      simp only [List.filter_cons, List.filter_nil, decide_eq_true_eq, this,
        if_false, List.length_nil]
      by_cases hlt : p < N
      · simp [hlt, Nat.lt_succ_of_lt hlt]
      · have : ¬ (p < N + 1) := by omega
        simp [hlt, this]

/-- C9: on every board of the enumerated difficulty table, each pair identifier
below N/2 occupies exactly two positions of the generated pair list, and the
Fisher-Yates shuffle of `generateCards` (driven by random values in `[0,1)`)
produces a permutation of that list, so the multiset of cards — hence of
symbol/pair-id values — is preserved. -/
theorem c9_pairing_and_shuffle_perm (d : String) (cfg : DifficultyProfile)
    (_hd : DIFFICULTIES d = some cfg) (rnd : List ℚ)
    (hr : ∀ q ∈ rnd, 0 ≤ q ∧ q < 1) (p : ℕ)
    (hp : p < (cfg.rows * cfg.cols) / 2) (g : GameState) :
    ((MemoryGame.cardPairs cfg).filter (fun c => decide (c.pairId = p))).length = 2 ∧
    List.Perm ((MemoryGame.generateCards g rnd).1.cards) (MemoryGame.cardPairs g.config) := by
  constructor
  · unfold MemoryGame.cardPairs
    rw [cardPairs_filter_length ((cfg.rows * cfg.cols) / 2) [] p]
    simp [hp]
  · unfold MemoryGame.generateCards
    dsimp only
    exact shuffleArray_perm ⟨"", "", 0⟩ (MemoryGame.cardPairs g.config) rnd hr

/-- Witness for C9: the beginner board, the empty random stream (all draws
default to `0`) and pair id `0`. -/
theorem c9_pairing_and_shuffle_perm_witness :
    DIFFICULTIES "beginner" = some ⟨4, 4, 7/10⟩ ∧
    (0 : ℕ) < ((4 * 4) / 2 : ℕ) ∧
    ((MemoryGame.cardPairs ⟨4, 4, 7/10⟩).filter (fun c => decide (c.pairId = 0))).length = 2 ∧
    List.Perm ((MemoryGame.generateCards initialGame []).1.cards)
      (MemoryGame.cardPairs initialGame.config) := by
  have h := c9_pairing_and_shuffle_perm "beginner" ⟨4, 4, 7/10⟩ rfl []
    (by simp) 0 (by decide) initialGame
  exact ⟨rfl, by decide, h.1, h.2⟩

/-! ### C6 -/

/-- A sequence of `recordMoveResult` calls (`recordOutcome` of the spec), each
given the card indices, the match flag and the symbols of one resolved move. -/
def runOutcomes (a : AIState) (moves : List (List ℕ × Bool × List String)) : AIState :=
  moves.foldl (fun a m => MemoryAI.recordMoveResult a m.1 m.2.1 m.2.2) a

theorem DIFFICULTIES_aiAccuracy_bounds (d : String) (p : DifficultyProfile)
    (hd : DIFFICULTIES d = some p) : 0 ≤ p.aiAccuracy ∧ p.aiAccuracy ≤ 99/100 := by
  unfold DIFFICULTIES at hd
  split at hd <;>
    first
      | exact Option.noConfusion hd
      | (rw [Option.some.injEq] at hd; subst hd; constructor <;> norm_num)

theorem recordMoveResult_accuracy (a : AIState) (cs : List ℕ) (wm : Bool)
    (syms : List String) :
    (MemoryAI.recordMoveResult a cs wm syms).memoryAccuracy =
      (if wm then min (99/100) (a.memoryAccuracy + 1/100)
       else max (a.config.aiAccuracy * (8/10)) (a.memoryAccuracy - 5/1000)) ∧
    (MemoryAI.recordMoveResult a cs wm syms).config = a.config := by
  unfold MemoryAI.recordMoveResult MemoryAI.learnFromMove
  cases wm <;> simp [mathMin_eq, mathMax_eq]

theorem recordMoveResult_accuracy_bounds (a : AIState) (b : ℚ)
    (hcfg : a.config.aiAccuracy = b) (hub : b ≤ 99/100) (_hlb0 : 0 ≤ b)
    (hlo : b * (8/10) ≤ a.memoryAccuracy) (hhi : a.memoryAccuracy ≤ 99/100)
    (cs : List ℕ) (wm : Bool) (syms : List String) :
    b * (8/10) ≤ (MemoryAI.recordMoveResult a cs wm syms).memoryAccuracy ∧
    (MemoryAI.recordMoveResult a cs wm syms).memoryAccuracy ≤ 99/100 ∧
    (MemoryAI.recordMoveResult a cs wm syms).config.aiAccuracy = b := by
  obtain ⟨hacc, hcfg2⟩ := recordMoveResult_accuracy a cs wm syms
  rw [hacc, hcfg2, hcfg]
  cases wm
  · simp only [if_false, Bool.false_eq_true]
    refine ⟨le_max_left _ _, max_le (by linarith) (by linarith), trivial⟩
  · simp only [if_true]
    refine ⟨le_min (by linarith) (by linarith), min_le_left _ _, trivial⟩

theorem runOutcomes_accuracy_bounds (b : ℚ) (hub : b ≤ 99/100) (hlb0 : 0 ≤ b) :
    ∀ (moves : List (List ℕ × Bool × List String)) (a : AIState),
      a.config.aiAccuracy = b →
      b * (8/10) ≤ a.memoryAccuracy → a.memoryAccuracy ≤ 99/100 →
      b * (8/10) ≤ (runOutcomes a moves).memoryAccuracy ∧
        (runOutcomes a moves).memoryAccuracy ≤ 99/100 := by
  intro moves
  induction moves with
  | nil => exact fun a _ hlo hhi => ⟨hlo, hhi⟩
  | cons m rest ih =>
    intro a hcfg hlo hhi
    obtain ⟨h1, h2, h3⟩ :=
      recordMoveResult_accuracy_bounds a b hcfg hub hlb0 hlo hhi m.1 m.2.1 m.2.2
    exact ih (MemoryAI.recordMoveResult a m.1 m.2.1 m.2.2) h3 h1 h2

/-- C6: for every difficulty of the enumerated table with base accuracy `b`,
starting from recall accuracy `b`, the accuracy after any sequence of
`recordMoveResult` calls stays within `[0.8 * b, 0.99]`; each single call moves
it by the fixed steps of the source — a match raises it by `1/100` capped at
`99/100`, a miss lowers it by `5/1000` floored at `0.8 * b`. -/
theorem c6_recall_accuracy_bounds (d : String) (p : DifficultyProfile)
    (hd : DIFFICULTIES d = some p) (a : AIState)
    (hcfg : a.config = p) (hacc : a.memoryAccuracy = p.aiAccuracy)
    (moves : List (List ℕ × Bool × List String)) :
    (p.aiAccuracy * (8/10) ≤ (runOutcomes a moves).memoryAccuracy ∧
     (runOutcomes a moves).memoryAccuracy ≤ 99/100) ∧
    (∀ (a2 : AIState) (cs : List ℕ) (syms : List String), a2.config = p →
      (MemoryAI.recordMoveResult a2 cs true syms).memoryAccuracy =
        min (99/100) (a2.memoryAccuracy + 1/100) ∧
      (MemoryAI.recordMoveResult a2 cs false syms).memoryAccuracy =
        max (p.aiAccuracy * (8/10)) (a2.memoryAccuracy - 5/1000)) := by
  obtain ⟨hlb0, hub⟩ := DIFFICULTIES_aiAccuracy_bounds d p hd
  constructor
  · refine runOutcomes_accuracy_bounds p.aiAccuracy hub hlb0 moves a ?_ ?_ ?_
    · rw [hcfg]
    · rw [hacc]
      nlinarith
    · rw [hacc]
      exact hub
  · intro a2 cs syms hcfg2
    obtain ⟨ht, -⟩ := recordMoveResult_accuracy a2 cs true syms
    obtain ⟨hf, -⟩ := recordMoveResult_accuracy a2 cs false syms
    rw [ht, hf, hcfg2]
    exact ⟨rfl, rfl⟩

unseal Rat.mul Rat.add Rat.sub Rat.inv in
/-- Witness for C6: the beginner profile, a fresh AI, one matched then one
missed move. -/
theorem c6_recall_accuracy_bounds_witness :
    DIFFICULTIES "beginner" = some ⟨4, 4, 7/10⟩ ∧
    initialAI.config = ⟨4, 4, 7/10⟩ ∧
    initialAI.memoryAccuracy = (⟨4, 4, 7/10⟩ : DifficultyProfile).aiAccuracy ∧
    ((⟨4, 4, 7/10⟩ : DifficultyProfile).aiAccuracy * (8/10) ≤
        (runOutcomes initialAI
          [([0, 1], true, ["emoji-star", "emoji-star"]),
           ([2, 5], false, ["emoji-circle", "emoji-triangle"])]).memoryAccuracy ∧
      (runOutcomes initialAI
          [([0, 1], true, ["emoji-star", "emoji-star"]),
           ([2, 5], false, ["emoji-circle", "emoji-triangle"])]).memoryAccuracy ≤
        99/100) :=
  ⟨rfl, rfl, rfl,
    (c6_recall_accuracy_bounds "beginner" ⟨4, 4, 7/10⟩ rfl initialAI rfl rfl
      [([0, 1], true, ["emoji-star", "emoji-star"]),
       ([2, 5], false, ["emoji-circle", "emoji-triangle"])]).1⟩

/-! ### C10 -/

/-- C10: the match-handling step `handleMatch` appends exactly the new pair to
the matched set and increments exactly the score of the player whose turn it is;
every other field — the other score, the cards array, the active player, the
difficulty, the active flag, the revealed list, the move counter, the profile
and the pair total — is unchanged. -/
theorem c10_handleMatch_frame (g : GameState) (c1 c2 : ℕ) :
    (MemoryGame.handleMatch g c1 c2).matchedPairs = g.matchedPairs ++ [(c1, c2)] ∧
    (MemoryGame.handleMatch g c1 c2).playerScore =
      (if g.currentPlayer = Player.player then g.playerScore + 1 else g.playerScore) ∧
    (MemoryGame.handleMatch g c1 c2).aiScore =
      (if g.currentPlayer = Player.player then g.aiScore else g.aiScore + 1) ∧
    (MemoryGame.handleMatch g c1 c2).cards = g.cards ∧
    (MemoryGame.handleMatch g c1 c2).currentPlayer = g.currentPlayer ∧
    (MemoryGame.handleMatch g c1 c2).difficulty = g.difficulty ∧
    (MemoryGame.handleMatch g c1 c2).isGameActive = g.isGameActive ∧
    (MemoryGame.handleMatch g c1 c2).flippedCards = g.flippedCards ∧
    (MemoryGame.handleMatch g c1 c2).moves = g.moves ∧
    (MemoryGame.handleMatch g c1 c2).config = g.config ∧
    (MemoryGame.handleMatch g c1 c2).totalPairs = g.totalPairs := by
  unfold MemoryGame.handleMatch
  by_cases h : g.currentPlayer = Player.player <;> simp [h]

end JsModel
